import Mathlib

/-
Verification of the MassWappalyzer engine (masswappalyzer.py) against its
natural-language specification.  The Python source is shallowly embedded:
pure string helpers become Lean functions on `String`/`List Char`, the
dynamically-typed JSON result values become inductive types, dictionaries
become ordered association lists (`List (String × String)`) with Python's
insert-or-assign semantics, exceptions become `Except`, and the
nondeterministic iteration order of a Python `set` is modelled by an
explicit enumeration function constrained by `IsSetEnum`.
-/

set_option maxRecDepth 4000

namespace MW

/-! ### Basic Python string primitives (ASCII model) -/

/-- Python `str.title()` for ASCII strings: a cased character following a
non-cased character is uppercased, every other cased character is
lowercased (`'jQuery'.title() = 'Jquery'`, `'last_url'.title() = 'Last_Url'`). -/
def pyTitleAux : Bool → List Char → List Char
  | _, [] => []
  | prevCased, c :: cs =>
    if c.isAlpha then
      (if prevCased then c.toLower else c.toUpper) :: pyTitleAux true cs
    else
      c :: pyTitleAux false cs

def pyTitle (s : String) : String := String.mk (pyTitleAux false s.data)

/-- Python `str.lower()` restricted to ASCII. -/
def pyLower (s : String) : String := String.mk (s.data.map Char.toLower)

/-- Characters stripped by Python `str.strip()` (ASCII whitespace). -/
def isPySpace (c : Char) : Bool :=
  c == ' ' || c == '\t' || c == '\n' || c == '\x0d' || c == '\x0b' || c == '\x0c'

/-- Python `str.strip()` (ASCII model). -/
def pyStrip (s : String) : String :=
  String.mk (((s.data.dropWhile isPySpace).reverse.dropWhile isPySpace).reverse)

/-- Python `str.split('.')`, on the character list: splits at every dot and
keeps empty fragments, so the result is always non-empty. -/
def splitDot : List Char → List (List Char)
  | [] => [[]]
  | c :: rest =>
    if c = '.' then [] :: splitDot rest
    else
      match splitDot rest with
      | [] => [[c]]
      | h :: t => (c :: h) :: t

/-- Python `'sep'.join(parts)`. -/
def joinSep (sep : String) : List String → String
  | [] => ""
  | [x] => x
  | x :: xs => x ++ sep ++ joinSep sep xs

/-- Lexicographic `≤` on code points, Python's string ordering (ASCII model). -/
def lexLeB : List Char → List Char → Bool
  | [], _ => true
  | _ :: _, [] => false
  | a :: as, b :: bs => if a < b then true else if a = b then lexLeB as bs else false

def strLeB (a b : String) : Bool := lexLeB a.data b.data

/-- Insertion step of a sorting model for Python `sorted`. -/
def insertSorted (x : String) : List String → List String
  | [] => [x]
  | y :: ys => if strLeB x y then x :: y :: ys else y :: insertSorted x ys

/-- Model of Python `sorted` on a list of strings (insertion sort). -/
def sortStrings (l : List String) : List String := l.foldr insertSorted []

/-- Whether a list of strings is in nondecreasing lexicographic order. -/
def isSortedLe : List String → Bool
  | [] => true
  | [_] => true
  | x :: y :: rest => strLeB x y && isSortedLe (y :: rest)

/-! ### The sanitizer `clean` (masswappalyzer.py lines 33-39) -/

/-- The sanitizer `clean(s)` from the source: strips characters outside `[0-9a-zA-Z_]`,
then strips leading characters until a letter or underscore, and finally —
in a branch shown below to be unreachable — would prepend an underscore to
an all-numeric result.  `isnumeric` is modelled on the post-filter ASCII
character set. -/
def clean (s : String) : String :=
  let l1 := s.data.filter (fun c => c.isAlphanum || c == '_')
  let l2 := l1.dropWhile (fun c => !(c.isAlpha || c == '_'))
  if !l2.isEmpty && l2.all Char.isDigit then String.mk ('_' :: l2) else String.mk l2

/-! ### Python identifier / namedtuple field-name checks -/

/-- Python `str.isidentifier()` (ASCII model). -/
def pyIsIdentifier (s : String) : Bool :=
  match s.data with
  | [] => false
  | c :: cs => (c.isAlpha || c == '_') && cs.all (fun d => d.isAlphanum || d == '_')

/-- Python `name.startswith('_')`. -/
def startsUnderscore (s : String) : Bool :=
  match s.data with
  | [] => false
  | c :: _ => c == '_'

/-- The Python keyword list checked by `collections.namedtuple`. -/
def pyKeywords : List String :=
  ["False", "None", "True", "and", "as", "assert", "async", "await",
   "break", "class", "continue", "def", "del", "elif", "else", "except",
   "finally", "for", "from", "global", "if", "import", "in", "is",
   "lambda", "nonlocal", "not", "or", "pass", "raise", "return", "try",
   "while", "with", "yield"]

/-- A string accepted by `namedtuple` as a field name: a non-keyword
identifier that does not begin with an underscore. -/
def validFieldName (s : String) : Bool :=
  pyIsIdentifier s && !(pyKeywords.contains s) && !(startsUnderscore s)

def nodupB : List String → Bool
  | [] => true
  | x :: xs => !(xs.contains x) && nodupB xs

/-! ### Ordered dictionaries as association lists -/

/-- Lookup in a Python dict modelled as an ordered association list. -/
def getVal : List (String × String) → String → Option String
  | [], _ => none
  | (k, v) :: rest, key => if k = key then some v else getVal rest key

def keysOf (d : List (String × String)) : List String := d.map Prod.fst

/-- Python dict insert-or-assign (`d[k] = v` / `d.update({k: v})`): an
existing key keeps its position and gets the new value, a new key is
appended. -/
def dictUpdate (d : List (String × String)) (k v : String) : List (String × String) :=
  if (keysOf d).contains k then
    d.map (fun p => if p.1 = k then (k, v) else p)
  else
    d ++ [(k, v)]

/-- An admissible model of Python `list(set(l))`: some duplicate-free
enumeration of the members of `l`.  CPython's actual order is
hash-dependent and unspecified. -/
def IsSetEnum (f : List String → List String) : Prop :=
  ∀ l, (f l).Nodup ∧ ∀ x, x ∈ f l ↔ x ∈ l

/-! ### `ensure_keys` (masswappalyzer.py lines 23-26) -/

/-- The function `ensure_keys(dictionnary, keys, default_val)` from the source:
`namedtuple('row', list(set(keys(d) + keys)))` with all defaults set to
`default_val`, instantiated with `d` and converted back to a dict.  The
`namedtuple` constructor validates every field name (identifier, not a
keyword, no duplicate, no leading underscore) and `row(**d)` requires every
key of `d` to be a field; each failed check raises, modelled as `.error`. -/
def ensure_keys (setEnum : List String → List String)
    (dictionnary : List (String × String)) (keys : List String)
    (default_val : String) : Except String (List (String × String)) :=
  let fields := setEnum (keysOf dictionnary ++ keys)
  if !(fields.all pyIsIdentifier) then
    .error "ValueError: Type names and field names must be valid identifiers"
  else if fields.any (fun k => pyKeywords.contains k) then
    .error "ValueError: Type names and field names cannot be a keyword"
  else if !(nodupB fields) then
    .error "ValueError: Encountered duplicate field name"
  else if fields.any (fun k => startsUnderscore k) then
    .error "ValueError: Field names cannot start with an underscore"
  else if !((keysOf dictionnary).all (fun k => fields.contains k)) then
    .error "TypeError: unexpected keyword argument"
  else
    .ok (fields.map (fun k => (k, (getVal dictionnary k).getD default_val)))

/-! ### Data model of analyzer results -/

/-- A JSON value stored under an application key: the source renders plain
(string) values with `str` and dict values as a comma-joined pair list. -/
inductive AppValue
  | str (v : String)
  | dict (entries : List (String × String))
deriving DecidableEq

/-- One entry of `result['applications']`: a dict with a `'name'` key (the
source reads `app['name']`) plus its remaining key/value pairs in order. -/
structure App where
  name : String
  fields : List (String × AppValue)
deriving DecidableEq

/-- A successful Wappalyzer result dict: `'urls'` maps each visited URL to
its status string, `'applications'` is the finding list. -/
structure WResult where
  urls : List (String × String)
  applications : List App
deriving DecidableEq

/-- One element of `raw_results`: either a result dict or the
`RuntimeError` value returned by `analyze` on failure. -/
inductive Outcome
  | ok (r : WResult)
  | err (msg : String)
deriving DecidableEq

def Outcome.toDict : Outcome → Option WResult
  | .ok r => some r
  | .err _ => none

/-! ### Record construction (MassWappalyzer.run, lines 321-364) -/

/-- Python truthiness of an application value (`and v`). -/
def truthy : AppValue → Bool
  | .str v => !(v == "")
  | .dict l => !l.isEmpty

def renderVal : AppValue → String
  | .str v => v
  | .dict l => joinSep ", " (l.map (fun p => p.1 ++ " - " ++ p.2))

/-- The human-readable cell value built for one application (lines 345-355):
newline-joined `'K.title(): v'` over the app's items, skipping `name`,
`icon`, `confidence` and falsy values; dict values are comma-joined
`'k1 - v1'` pairs. -/
def renderApp (a : App) : String :=
  joinSep "\n"
    ((a.fields.filter (fun p =>
        !((["name", "icon", "confidence"] : List String).contains p.1) && truthy p.2)).map
      (fun p => pyTitle p.1 ++ ": " ++ renderVal p.2))

/-- The `Urls` metadata cell (line 339). -/
def urlsField (r : WResult) : String :=
  joinSep "\n" (r.urls.map (fun p => p.1 ++ " (" ++ p.2 ++ ")"))

/-- The `Last_Url` metadata cell (line 340); the caller guards against an
empty `urls` dict, which raises IndexError in the source. -/
def lastUrlField (r : WResult) : String := (r.urls.map Prod.fst).getLastD ""

/-- The dict `website_dict` for one successful item (lines 338-355): metadata keys
first, then one `dict.update` per application in arrival order, keyed by
the sanitized name. -/
def websiteDict (r : WResult) : List (String × String) :=
  r.applications.foldl (fun d a => dictUpdate d (clean a.name) (renderApp a))
    [("Urls", urlsField r), ("Last_Url", lastUrlField r)]

/-- The sanitized names of every application of every successful item, in
iteration order (lines 323-327 before the `set` is sorted). -/
def collectNames (raw : List Outcome) : List String :=
  (raw.filterMap Outcome.toDict).flatMap (fun r => r.applications.map (fun a => clean a.name))

/-- The list `all_apps = sorted(all_apps)` (lines 323-330): the sorted,
de-duplicated sanitized name set, identical for every admissible set
order. -/
def allApps (raw : List Outcome) : List String := sortStrings (collectNames raw).dedup

/-- Record construction for one successful item: the source first builds
`website_dict` (raising IndexError when `urls` is empty, line 340) and then
calls `ensure_keys(website_dict, all_apps)` (line 357). -/
def buildRecord (setEnum : List String → List String) (allA : List String)
    (r : WResult) : Except String (List (String × String)) :=
  if r.urls.isEmpty then .error "IndexError: list index out of range"
  else ensure_keys setEnum (websiteDict r) allA ""

/-- The aggregation loop over `raw_results` (lines 335-360): failures are
printed and skipped, successes are turned into records; any raised
exception aborts the run. -/
def aggGo (setEnum : List String → List String) (allA : List String) :
    List Outcome → Except String (List (List (String × String)))
  | [] => .ok []
  | Outcome.err _ :: rest => aggGo setEnum allA rest
  | Outcome.ok r :: rest =>
    match buildRecord setEnum allA r with
    | .error e => .error e
    | .ok record =>
      match aggGo setEnum allA rest with
      | .error e => .error e
      | .ok others => .ok (record :: others)

/-- The list `excel_structure` as a function of `raw_results` (lines 321-360). -/
def aggregate (setEnum : List String → List String) (raw : List Outcome) :
    Except String (List (List (String × String))) :=
  aggGo setEnum (allApps raw) raw

/-! ### Output file name (MassWappalyzer.__init__, lines 286-295) -/

def lastExtOf (s : String) : String := ((splitDot s.data).map String.mk).getLastD ""

/-- The output-file name fixup: when the lowercased final `.`-component of
the supplied name differs from the requested format the format is appended
as a new extension; the `len(...)>0` guard is always true. -/
def setOutputfile (outputfile outputformat : String) : String :=
  if ((splitDot outputfile.data).map String.mk).length > 0 then
    if pyLower (lastExtOf outputfile) ≠ outputformat then outputfile ++ "." ++ outputformat
    else outputfile
  else outputfile ++ "." ++ outputformat

/-! ### End of the run (lines 362-386) -/

/-- How a run terminates: a graceful `exit(code)` with a printed message, a
written output artifact, or an uncaught exception. -/
inductive RunEnd
  | exited (code : Nat) (msg : String)
  | wrote (filename : String) (fmt : String)
  | crashed (msg : String)
deriving DecidableEq

/-- The tail of `MassWappalyzer.run`: aggregation, the empty-result guard
`print("No valid results, quitting."); exit(1)` (lines 362-364), and
otherwise the export of the output file. -/
def runEnd (setEnum : List String → List String) (fmt outputfile : String)
    (raw : List Outcome) : RunEnd :=
  match aggregate setEnum raw with
  | .error e => .crashed e
  | .ok recs =>
    if recs.isEmpty then .exited 1 "No valid results, quitting."
    else .wrote (setOutputfile outputfile fmt) fmt

/-- The CSV header row (line 377): the titleized keys of the first record. -/
def csvFieldnames (setEnum : List String → List String) (raw : List Outcome) :
    List String :=
  match aggregate setEnum raw with
  | .ok (record :: _) => record.map (fun p => pyTitle p.1)
  | _ => []

/-! ### The analyzer wrapper (WappalyzerWrapper.analyze, lines 215-272) -/

/-- Response of the in-process python-Wappalyzer backend: the technology
map used to build `result['applications']`, or any raised exception (the
source catches all of them, line 247). -/
inductive PyResp
  | apps (l : List (String × List (String × AppValue)))
  | exc (msg : String)

/-- Response of the CLI subprocess backend: an exit with a return code and
stdout (`some` when the bytes parse as JSON, `none` otherwise, with the
raw text kept for the error message), or a timeout. -/
inductive CliResp
  | exit (returncode : Nat) (stdout : Option WResult) (raw : String)
  | timeout

/-- What one `analyze` call does: return a result dict, return a
`RuntimeError` value, or raise an uncaught exception. -/
inductive AnalyzeOut
  | ok (r : WResult)
  | err (msg : String)
  | exc (msg : String)
deriving DecidableEq

def AnalyzeOut.isExc : AnalyzeOut → Bool
  | .exc _ => true
  | _ => false

def AnalyzeOut.isOk : AnalyzeOut → Bool
  | .ok _ => true
  | _ => false

/-- The value an `analyze` call contributes to the `executor.map` result
list when it returns. -/
def AnalyzeOut.toOutcome : AnalyzeOut → Outcome
  | .ok r => Outcome.ok r
  | .err m => Outcome.err m
  | .exc m => Outcome.err m

/-- The entry a completed call leaves in `self.results` (line 271): only a
returned result dict is appended there, never a failure. -/
def AnalyzeOut.completedResult : AnalyzeOut → Option Outcome
  | .ok r => some (Outcome.ok r)
  | _ => none

/-- Scheme characters of `urllib.parse` (letters, digits, `+`, `-`, `.`). -/
def schemeChars (c : Char) : Bool := c.isAlphanum || c == '+' || c == '-' || c == '.'

def hasSchemeAux : List Char → Bool
  | [] => false
  | c :: cs => if c = ':' then true else schemeChars c && hasSchemeAux cs

/-- Whether `urlparse(host)[0]` is non-empty: a leading letter followed by
scheme characters up to a colon. -/
def hasScheme (s : String) : Bool :=
  match s.data with
  | [] => false
  | c :: cs => c.isAlpha && hasSchemeAux cs

/-- Lines 217-222: strip the URL and prepend `http://` when no scheme is
present. -/
def normalizeHost (host : String) : String :=
  let h := pyStrip host
  if hasScheme h then h else "http://" ++ h

/-- The method `WappalyzerWrapper.analyze` (lines 215-272) as a function of the
backend choice and the backend's behaviour.  The python backend converts
every exception into a returned `RuntimeError`; the CLI backend converts
timeouts and non-zero exits, but a zero exit whose stdout is not JSON
raises the JSON decode error uncaught. -/
def analyzeOut (python : Bool) (pyEngine : String → PyResp)
    (cliEngine : String → CliResp) (host0 : String) : AnalyzeOut :=
  let host := normalizeHost host0
  if python then
    match pyEngine host with
    | .apps l => .ok ⟨[(host, "OK")], l.map (fun p => ⟨p.1, p.2⟩)⟩
    | .exc m => .err m
  else
    match cliEngine host with
    | .timeout => .err ("Analyzing " ++ host ++ " too long, process killed.")
    | .exit 0 (some r) _ => .ok r
    | .exit 0 none _ => .exc "json.decoder.JSONDecodeError: Expecting value"
    | .exit _ _ raw => .err ("Wappalyzer failed:" ++ "\n" ++ raw)

/-! ### The orchestrator `perform` (lines 103-149) and the run -/

/-- The call `list(ThreadPoolExecutor(max_workers=w).map(func, elements))` (lines
132-141): results in submission order, one per element; the first raised
exception propagates and discards the list. -/
def performE (f : String → AnalyzeOut) : List String → Except String (List Outcome)
  | [] => .ok []
  | t :: ts =>
    match f t with
    | .exc m => .error m
    | .ok r =>
      match performE f ts with
      | .error e => .error e
      | .ok l => .ok (Outcome.ok r :: l)
    | .err m =>
      match performE f ts with
      | .error e => .error e
      | .ok l => .ok (Outcome.err m :: l)

/-- The value `raw_results` in `MassWappalyzer.run` (lines 306-317): the full
`perform` result when the run is not interrupted; on a KeyboardInterrupt,
`self.analyzer.results`, i.e. the results of the calls that completed
before the interrupt — the interrupt itself is caught, never re-raised.
`interrupt = some completed` gives the completed calls in completion
order. -/
def rawResults (python : Bool) (pyEngine : String → PyResp)
    (cliEngine : String → CliResp) (targets : List String)
    (interrupt : Option (List String)) : Except String (List Outcome) :=
  match interrupt with
  | none => performE (analyzeOut python pyEngine cliEngine) targets
  | some completed =>
    .ok ((completed.map (analyzeOut python pyEngine cliEngine)).filterMap
      AnalyzeOut.completedResult)

/-- Whole-run composition: dispatch (possibly interrupted), aggregation,
and the terminal step.  An exception escaping `perform` is not caught by
the `except KeyboardInterrupt` clause, so the run crashes (in the source
the `finally` block then even hits an unbound `raw_results`). -/
def massRun (python : Bool) (pyEngine : String → PyResp)
    (cliEngine : String → CliResp) (setEnum : List String → List String)
    (fmt outputfile : String) (targets : List String)
    (interrupt : Option (List String)) : RunEnd :=
  match rawResults python pyEngine cliEngine targets interrupt with
  | .error e => .crashed e
  | .ok raw => runEnd setEnum fmt outputfile raw

def exceptOk {α : Type} : Except String α → Bool
  | .ok _ => true
  | .error _ => false

/-! ## Helper lemmas -/

theorem dedup_isSetEnum : IsSetEnum (fun l => l.dedup) :=
  fun l => ⟨List.nodup_dedup l, fun _ => List.mem_dedup⟩

theorem splitDot_ne_nil (l : List Char) : splitDot l ≠ [] := by
  cases l with
  | nil => simp [splitDot]
  | cons c rest =>
    unfold splitDot
    by_cases h : c = '.'
    · simp [h]
    · rw [if_neg h]
      cases hs : splitDot rest <;> simp

theorem mem_insertSorted (x y : String) (l : List String) :
    y ∈ insertSorted x l ↔ y = x ∨ y ∈ l := by
  induction l with
  | nil => simp [insertSorted]
  | cons z zs ih =>
    unfold insertSorted
    by_cases h : strLeB x z = true
    · simp only [h, if_true, List.mem_cons]
    · simp only [h, if_false, Bool.false_eq_true, List.mem_cons, ih]
      tauto

theorem mem_sortStrings (l : List String) (y : String) : y ∈ sortStrings l ↔ y ∈ l := by
  induction l with
  | nil => simp [sortStrings]
  | cons x xs ih =>
    unfold sortStrings at ih ⊢
    rw [List.foldr_cons, mem_insertSorted, ih, List.mem_cons]

theorem mem_allApps (raw : List Outcome) (x : String) :
    x ∈ allApps raw
      ↔ ∃ r ∈ raw.filterMap Outcome.toDict, ∃ a ∈ r.applications, clean a.name = x := by
  unfold allApps collectNames
  rw [mem_sortStrings, List.mem_dedup, List.mem_flatMap]
  simp [List.mem_map]

theorem nodupB_iff (l : List String) : nodupB l = true ↔ l.Nodup := by
  induction l with
  | nil => simp [nodupB]
  | cons x xs ih =>
    simp [nodupB, List.nodup_cons, ih, List.elem_iff]

theorem validFieldName_spec (k : String) (h : validFieldName k = true) :
    pyIsIdentifier k = true ∧ pyKeywords.contains k = false ∧ startsUnderscore k = false := by
  unfold validFieldName at h
  simp only [Bool.and_eq_true, Bool.not_eq_true'] at h
  tauto

theorem getVal_mapSelf (f : String → String) (fields : List String) (k : String) :
    getVal (fields.map (fun x => (x, f x))) k
      = if k ∈ fields then some (f k) else none := by
  induction fields with
  | nil => simp [getVal]
  | cons x xs ih =>
    simp only [List.map_cons, getVal]
    by_cases hx : x = k
    · subst hx
      simp
    · rw [if_neg hx, ih]
      by_cases hk : k ∈ xs
      · rw [if_pos hk, if_pos (List.mem_cons_of_mem x hk)]
      · rw [if_neg hk, if_neg (by
          simp only [List.mem_cons]
          rintro (rfl | hm)
          · exact hx rfl
          · exact hk hm)]

theorem getVal_isSome_iff (d : List (String × String)) (k : String) :
    (getVal d k).isSome = true ↔ k ∈ keysOf d := by
  induction d with
  | nil => simp [getVal, keysOf]
  | cons p rest ih =>
    obtain ⟨k1, v1⟩ := p
    simp only [getVal, keysOf, List.map_cons, List.mem_cons]
    by_cases h : k1 = k
    · subst h
      simp
    · rw [if_neg h]
      simp only [keysOf] at ih
      rw [ih]
      constructor
      · exact Or.inr
      · rintro (rfl | hm)
        · exact absurd rfl h
        · exact hm

theorem getVal_not_mem (d : List (String × String)) (k : String) (h : k ∉ keysOf d) :
    getVal d k = none := by
  cases hv : getVal d k with
  | none => rfl
  | some v =>
    exact absurd ((getVal_isSome_iff d k).mp (by rw [hv]; rfl)) h

theorem getVal_append (d e : List (String × String)) (k : String) :
    getVal (d ++ e) k
      = match getVal d k with
        | some v => some v
        | none => getVal e k := by
  induction d with
  | nil => simp [getVal]
  | cons p rest ih =>
    obtain ⟨k1, v1⟩ := p
    simp only [List.cons_append, getVal]
    by_cases h : k1 = k
    · rw [if_pos h, if_pos h]
    · rw [if_neg h, if_neg h]
      exact ih

theorem getVal_assign_mem (d : List (String × String)) (k v : String) (h : k ∈ keysOf d) :
    getVal (d.map (fun p => if p.1 = k then (k, v) else p)) k = some v := by
  induction d with
  | nil => simp [keysOf] at h
  | cons p rest ih =>
    obtain ⟨k1, v1⟩ := p
    by_cases h1 : k1 = k
    · subst h1
      simp only [List.map_cons]
      simp [getVal]
    · have h2 : k ∈ keysOf rest := by
        simp only [keysOf, List.map_cons, List.mem_cons] at h
        rcases h with h | h
        · exact absurd h.symm h1
        · exact h
      simp only [List.map_cons]
      rw [if_neg h1]
      simp only [getVal, if_neg h1]
      exact ih h2

theorem getVal_assign_other (d : List (String × String)) (k v k' : String) (h : k ≠ k') :
    getVal (d.map (fun p => if p.1 = k then (k, v) else p)) k' = getVal d k' := by
  induction d with
  | nil => simp
  | cons p rest ih =>
    obtain ⟨k1, v1⟩ := p
    simp only [List.map_cons]
    by_cases h1 : k1 = k
    · subst h1
      rw [if_pos rfl]
      simp only [getVal]
      rw [if_neg h, if_neg h]
      exact ih
    · rw [if_neg h1]
      simp only [getVal]
      by_cases h2 : k1 = k' <;> simp [h2, ih]

theorem getVal_dictUpdate_self (d : List (String × String)) (k v : String) :
    getVal (dictUpdate d k v) k = some v := by
  unfold dictUpdate
  by_cases h : (keysOf d).contains k = true
  · rw [if_pos h]
    exact getVal_assign_mem d k v (List.elem_iff.mp h)
  · rw [if_neg h, getVal_append,
      getVal_not_mem d k (fun hm => h (List.elem_iff.mpr hm))]
    simp [getVal]

theorem getVal_dictUpdate_other (d : List (String × String)) (k v k' : String)
    (h : k ≠ k') : getVal (dictUpdate d k v) k' = getVal d k' := by
  unfold dictUpdate
  by_cases hc : (keysOf d).contains k = true
  · rw [if_pos hc]
    exact getVal_assign_other d k v k' h
  · rw [if_neg hc, getVal_append]
    cases hv : getVal d k' with
    | some v' => rfl
    | none => simp [getVal, if_neg h]

theorem mem_keysOf_dictUpdate (d : List (String × String)) (k v x : String) :
    x ∈ keysOf (dictUpdate d k v) ↔ x ∈ keysOf d ∨ x = k := by
  rw [← getVal_isSome_iff, ← getVal_isSome_iff]
  by_cases h : x = k
  · subst h
    rw [getVal_dictUpdate_self]
    simp
  · rw [getVal_dictUpdate_other d k v x (fun he => h he.symm)]
    simp [h]

theorem getVal_foldl_update (apps : List App) (d : List (String × String)) (k : String) :
    getVal (apps.foldl (fun d a => dictUpdate d (clean a.name) (renderApp a)) d) k
      = match (apps.filter (fun a => clean a.name == k)).getLast? with
        | some a => some (renderApp a)
        | none => getVal d k := by
  induction apps generalizing d with
  | nil => simp
  | cons a rest ih =>
    rw [List.foldl_cons, ih, List.filter_cons]
    by_cases ha : clean a.name = k
    · have hb : (clean a.name == k) = true := by simp [ha]
      rw [hb, if_pos rfl, List.getLast?_cons]
      cases hL : (rest.filter (fun a => clean a.name == k)).getLast? with
      | some b => simp [hL]
      | none =>
        simp only [hL, Option.getD_none]
        rw [ha, getVal_dictUpdate_self]
    · have hb : (clean a.name == k) = false := by simp [ha]
      rw [hb]
      simp only [Bool.false_eq_true, if_false]
      cases hL : (rest.filter (fun a => clean a.name == k)).getLast? with
      | some b => simp [hL]
      | none =>
        simp only [hL]
        exact getVal_dictUpdate_other d (clean a.name) (renderApp a) k ha

theorem mem_keysOf_foldl_update (apps : List App) (d : List (String × String)) (x : String) :
    x ∈ keysOf (apps.foldl (fun d a => dictUpdate d (clean a.name) (renderApp a)) d)
      ↔ x ∈ keysOf d ∨ ∃ a ∈ apps, clean a.name = x := by
  induction apps generalizing d with
  | nil => simp
  | cons a rest ih =>
    rw [List.foldl_cons, ih, mem_keysOf_dictUpdate]
    simp only [List.mem_cons]
    constructor
    · rintro ((hx | hx) | ⟨b, hb, hbx⟩)
      · exact Or.inl hx
      · exact Or.inr ⟨a, Or.inl rfl, hx.symm⟩
      · exact Or.inr ⟨b, Or.inr hb, hbx⟩
    · rintro (hx | ⟨b, hb | hb, hbx⟩)
      · exact Or.inl (Or.inl hx)
      · subst hb
        exact Or.inl (Or.inr hbx.symm)
      · exact Or.inr ⟨b, hb, hbx⟩

theorem mem_keysOf_websiteDict (r : WResult) (x : String) :
    x ∈ keysOf (websiteDict r)
      ↔ x = "Urls" ∨ x = "Last_Url" ∨ ∃ a ∈ r.applications, clean a.name = x := by
  unfold websiteDict
  rw [mem_keysOf_foldl_update]
  simp [keysOf, or_assoc]

theorem ensure_keys_ok (setEnum : List String → List String)
    (d : List (String × String)) (keys : List String) (dv : String)
    (m : List (String × String))
    (h : ensure_keys setEnum d keys dv = .ok m) :
    m = (setEnum (keysOf d ++ keys)).map (fun k => (k, (getVal d k).getD dv))
    ∧ ∀ k ∈ setEnum (keysOf d ++ keys), validFieldName k = true := by
  simp only [ensure_keys] at h
  split_ifs at h with h1 h2 h3 h4 h5
  all_goals cases h
  refine ⟨rfl, fun k hk => ?_⟩
  simp only [Bool.not_eq_true, Bool.not_eq_false, Bool.not_eq_false',
    Bool.not_eq_true'] at h1 h2 h3 h4 h5
  have hI : pyIsIdentifier k = true := List.all_eq_true.mp h1 k hk
  have hK : k ∉ pyKeywords := by
    intro hin
    have := List.any_eq_false.mp h2 k hk
    simp at this
    exact this hin
  have hU : startsUnderscore k = false := by
    have := List.any_eq_false.mp h4
    simpa using this k hk
  simp [validFieldName, hI, hK, hU]

theorem all_eq_true_of (p : String → Bool) (l : List String)
    (h : ∀ k ∈ l, p k = true) : l.all p = true := by
  induction l with
  | nil => rfl
  | cons x xs ih =>
    simp [List.all_cons, h x (List.mem_cons_self x xs),
      ih (fun k hk => h k (List.mem_cons_of_mem x hk))]

theorem any_eq_false_of (p : String → Bool) (l : List String)
    (h : ∀ k ∈ l, p k = false) : l.any p = false := by
  induction l with
  | nil => rfl
  | cons x xs ih =>
    simp [List.any_cons, h x (List.mem_cons_self x xs),
      ih (fun k hk => h k (List.mem_cons_of_mem x hk))]

theorem ensure_keys_isOk (setEnum : List String → List String)
    (d : List (String × String)) (keys : List String) (dv : String)
    (hσ : IsSetEnum setEnum)
    (hv : ∀ k ∈ keysOf d ++ keys, validFieldName k = true) :
    ∃ m, ensure_keys setEnum d keys dv = .ok m := by
  have hmem : ∀ k ∈ setEnum (keysOf d ++ keys), validFieldName k = true := fun k hk =>
    hv k (((hσ (keysOf d ++ keys)).2 k).mp hk)
  have hall : (setEnum (keysOf d ++ keys)).all pyIsIdentifier = true :=
    all_eq_true_of _ _ (fun k hk => (validFieldName_spec k (hmem k hk)).1)
  have hkw : ((setEnum (keysOf d ++ keys)).any fun k => pyKeywords.contains k) = false :=
    any_eq_false_of _ _ (fun k hk => (validFieldName_spec k (hmem k hk)).2.1)
  have hnd : nodupB (setEnum (keysOf d ++ keys)) = true :=
    (nodupB_iff _).mpr (hσ (keysOf d ++ keys)).1
  have hus : ((setEnum (keysOf d ++ keys)).any fun k => startsUnderscore k) = false :=
    any_eq_false_of _ _ (fun k hk => (validFieldName_spec k (hmem k hk)).2.2)
  have hsub : ((keysOf d).all fun k => (setEnum (keysOf d ++ keys)).contains k) = true :=
    all_eq_true_of _ _ (fun k hk =>
      List.elem_iff.mpr (((hσ (keysOf d ++ keys)).2 k).mpr (List.mem_append_left keys hk)))
  simp only [ensure_keys]
  rw [if_neg (by intro hcon; rw [hall] at hcon; simp at hcon),
    if_neg (by intro hcon; rw [hkw] at hcon; simp at hcon),
    if_neg (by intro hcon; rw [hnd] at hcon; simp at hcon),
    if_neg (by intro hcon; rw [hus] at hcon; simp at hcon),
    if_neg (by intro hcon; rw [hsub] at hcon; simp at hcon)]
  exact ⟨_, rfl⟩

theorem aggGo_ok_mem (setEnum : List String → List String) (allA : List String)
    (raw : List Outcome) (recs : List (List (String × String)))
    (h : aggGo setEnum allA raw = .ok recs) :
    ∀ rec ∈ recs, ∃ r, Outcome.ok r ∈ raw ∧ buildRecord setEnum allA r = .ok rec := by
  induction raw generalizing recs with
  | nil =>
    simp only [aggGo] at h
    injection h with h'
    subst h'
    simp
  | cons x rest ih =>
    cases x with
    | err m =>
      simp only [aggGo] at h
      intro rec hrec
      obtain ⟨r, hr, hb⟩ := ih _ h rec hrec
      exact ⟨r, List.mem_cons_of_mem _ hr, hb⟩
    | ok r0 =>
      simp only [aggGo] at h
      cases hb : buildRecord setEnum allA r0 with
      | error e => rw [hb] at h; simp at h
      | ok record =>
        rw [hb] at h
        cases hg : aggGo setEnum allA rest with
        | error e => rw [hg] at h; simp at h
        | ok others =>
          rw [hg] at h
          simp only [] at h
          injection h with h'
          subst h'
          intro rec hrec
          rcases List.mem_cons.mp hrec with rfl | hm
          · exact ⟨r0, List.mem_cons_self _ _, hb⟩
          · obtain ⟨r, hr, hb'⟩ := ih _ hg rec hm
            exact ⟨r, List.mem_cons_of_mem _ hr, hb'⟩

theorem aggGo_length (setEnum : List String → List String) (allA : List String)
    (raw : List Outcome) (recs : List (List (String × String)))
    (h : aggGo setEnum allA raw = .ok recs) :
    recs.length = (raw.filterMap Outcome.toDict).length := by
  induction raw generalizing recs with
  | nil =>
    simp only [aggGo] at h
    injection h with h'
    subst h'
    simp
  | cons x rest ih =>
    cases x with
    | err m =>
      simp only [aggGo] at h
      rw [ih _ h]
      simp [List.filterMap_cons, Outcome.toDict]
    | ok r0 =>
      simp only [aggGo] at h
      cases hb : buildRecord setEnum allA r0 with
      | error e => rw [hb] at h; simp at h
      | ok record =>
        rw [hb] at h
        cases hg : aggGo setEnum allA rest with
        | error e => rw [hg] at h; simp at h
        | ok others =>
          rw [hg] at h
          injection h with h'
          subst h'
          simp only [List.filterMap_cons, Outcome.toDict, List.length_cons]
          rw [ih _ hg]

theorem aggGo_get (setEnum : List String → List String) (allA : List String)
    (raw : List Outcome) (recs : List (List (String × String)))
    (h : aggGo setEnum allA raw = .ok recs) :
    ∀ i : Nat, recs[i]?
      = ((raw.filterMap Outcome.toDict)[i]?).bind
          (fun r => (buildRecord setEnum allA r).toOption) := by
  induction raw generalizing recs with
  | nil =>
    simp only [aggGo] at h
    injection h with h'
    subst h'
    simp
  | cons x rest ih =>
    cases x with
    | err m =>
      simp only [aggGo] at h
      intro i
      rw [ih _ h i]
      simp [List.filterMap_cons, Outcome.toDict]
    | ok r0 =>
      simp only [aggGo] at h
      cases hb : buildRecord setEnum allA r0 with
      | error e => rw [hb] at h; simp at h
      | ok record =>
        rw [hb] at h
        cases hg : aggGo setEnum allA rest with
        | error e => rw [hg] at h; simp at h
        | ok others =>
          rw [hg] at h
          injection h with h'
          subst h'
          intro i
          simp only [List.filterMap_cons, Outcome.toDict]
          cases i with
          | zero => simp [hb, Except.toOption]
          | succ n => simpa using ih _ hg n

theorem performE_ok (f : String → AnalyzeOut) (ts : List String)
    (h : ∀ t ∈ ts, (f t).isExc = false) :
    performE f ts = .ok (ts.map (fun t => (f t).toOutcome)) := by
  induction ts with
  | nil => rfl
  | cons t rest ih =>
    have ht := h t (List.mem_cons_self t rest)
    have hrest := ih (fun x hx => h x (List.mem_cons_of_mem t hx))
    simp only [performE, List.map_cons]
    cases hf : f t with
    | exc m => rw [hf] at ht; simp [AnalyzeOut.isExc] at ht
    | ok r =>
      rw [hrest]
      simp [AnalyzeOut.toOutcome]
    | err m =>
      rw [hrest]
      simp [AnalyzeOut.toOutcome]

theorem isOk_ok (r : WResult) : (AnalyzeOut.ok r).isOk = true := rfl

theorem isOk_err (m : String) : (AnalyzeOut.err m).isOk = false := rfl

theorem isOk_exc (m : String) : (AnalyzeOut.exc m).isOk = false := rfl

theorem completedResult_ok (r : WResult) :
    (AnalyzeOut.ok r).completedResult = some (Outcome.ok r) := rfl

theorem completedResult_err (m : String) : (AnalyzeOut.err m).completedResult = none := rfl

theorem completedResult_exc (m : String) : (AnalyzeOut.exc m).completedResult = none := rfl

theorem performE_filter_isOk (f : String → AnalyzeOut) (l : List String) :
    performE f (l.filter (fun t => (f t).isOk))
      = .ok ((l.map f).filterMap AnalyzeOut.completedResult) := by
  induction l with
  | nil => rfl
  | cons t rest ih =>
    cases hf : f t with
    | ok r =>
      simp only [List.filter_cons, List.map_cons, List.filterMap_cons, hf, isOk_ok,
        completedResult_ok, if_true]
      simp only [performE, hf]
      rw [ih]
    | err m =>
      simp only [List.filter_cons, List.map_cons, List.filterMap_cons, hf, isOk_err,
        completedResult_err, Bool.false_eq_true, if_false]
      exact ih
    | exc m =>
      simp only [List.filter_cons, List.map_cons, List.filterMap_cons, hf, isOk_exc,
        completedResult_exc, Bool.false_eq_true, if_false]
      exact ih

theorem aggGo_isOk (setEnum : List String → List String) (allA : List String)
    (l : List Outcome) (hσ : IsSetEnum setEnum)
    (h : ∀ r' ∈ l.filterMap Outcome.toDict, r'.urls ≠ [] ∧
         ∀ a ∈ r'.applications, validFieldName (clean a.name) = true)
    (hva : ∀ k ∈ allA, validFieldName k = true) :
    exceptOk (aggGo setEnum allA l) = true := by
  induction l with
  | nil => rfl
  | cons x rest ih =>
    cases x with
    | err m =>
      simp only [aggGo]
      exact ih (fun r' hr' => h r' (by simpa [List.filterMap_cons, Outcome.toDict] using hr'))
    | ok r0 =>
      have h0 := h r0 (by simp [List.filterMap_cons, Outcome.toDict])
      have hkeys : ∀ k ∈ keysOf (websiteDict r0) ++ allA, validFieldName k = true := by
        intro k hk
        rcases List.mem_append.mp hk with hk | hk
        · rcases (mem_keysOf_websiteDict r0 k).mp hk with rfl | rfl | ⟨a, ha, rfl⟩
          · decide
          · decide
          · exact h0.2 a ha
        · exact hva k hk
      have hne : r0.urls.isEmpty = false := by
        cases hu0 : r0.urls with
        | nil => exact absurd hu0 h0.1
        | cons a t => rfl
      simp only [aggGo]
      obtain ⟨m, hm⟩ := ensure_keys_isOk setEnum (websiteDict r0) allA "" hσ hkeys
      have hbr : buildRecord setEnum allA r0 = .ok m := by
        unfold buildRecord
        rw [if_neg (by simp [hne])]
        exact hm
      rw [hbr]
      have hrest := ih (fun r' hr' => h r' (by
        simp only [List.filterMap_cons, Outcome.toDict]
        exact List.mem_cons_of_mem r0 hr'))
      cases hg : aggGo setEnum allA rest with
      | error e => rw [hg] at hrest; cases hrest
      | ok others => rfl

/-! ## The claims -/

/-- C1 (code bug): the claim says `clean` always returns a non-empty valid
identifier, adding a disambiguating prefix when the cleaned name would
begin with a digit or become empty.  In the source the `isnumeric` prefix
branch (line 38) is unreachable — line 37 has already stripped every
leading digit — so `clean("123") = ""`, an empty non-identifier, and a
digit-led name such as `"9lives"` is stripped to `"lives"` rather than
prefixed. -/
theorem C1_clean_not_total :
    clean "123" = "" ∧ pyIsIdentifier (clean "123") = false
    ∧ validFieldName (clean "123") = false ∧ clean "9lives" = "lives" :=
  ⟨rfl, rfl, rfl, rfl⟩

def pyIdle : String → PyResp := fun _ => PyResp.apps []

def cliBadJson : String → CliResp := fun _ => CliResp.exit 0 none "not json"

/-- C2 counterexample: for the CLI backend, a zero-exit run whose stdout is
not JSON makes `json.loads` raise inside `analyze`; the exception
propagates through `executor.map`, so `perform` raises and returns no
Outcome list at all for the one dispatched target — not "exactly one
Outcome per dispatched target". -/
theorem C2_cex :
    rawResults false pyIdle cliBadJson ["a.com"] none
      = .error "json.decoder.JSONDecodeError: Expecting value"
    ∧ exceptOk (rawResults false pyIdle cliBadJson ["a.com"] none) = false :=
  ⟨rfl, rfl⟩

/-- C2 (amended): when no interruption occurs and no `analyze` call raises
an uncaught exception, the orchestrator returns exactly one Outcome per
dispatched target, in submission order, deterministically; moreover the
python backend never raises (it converts every exception into a returned
failure), so for it the proviso always holds. -/
theorem C2_perform_total (python : Bool) (pyE : String → PyResp)
    (cliE : String → CliResp) (targets : List String)
    (h : ∀ t ∈ targets, (analyzeOut python pyE cliE t).isExc = false) :
    rawResults python pyE cliE targets none
      = .ok (targets.map (fun t => (analyzeOut python pyE cliE t).toOutcome))
    ∧ (targets.map (fun t => (analyzeOut python pyE cliE t).toOutcome)).length
        = targets.length
    ∧ (∀ pyE' cliE' (t : String), (analyzeOut true pyE' cliE' t).isExc = false) := by
  refine ⟨performE_ok _ targets h, by simp, fun pyE' cliE' t => ?_⟩
  cases hp : pyE' (normalizeHost t) with
  | apps l => simp [analyzeOut, hp, AnalyzeOut.isExc]
  | exc m => simp [analyzeOut, hp, AnalyzeOut.isExc]

def pyTwo : String → PyResp := fun _ => PyResp.apps [("React", [])]

def cliIdle : String → CliResp := fun _ => CliResp.timeout

/-- Witness for C2: a two-target python-backend run returns exactly two
Outcomes, in submission order. -/
theorem C2_w :
    rawResults true pyTwo cliIdle ["a.com", "b.com"] none
      = .ok [Outcome.ok ⟨[("http://a.com", "OK")], [⟨"React", []⟩]⟩,
             Outcome.ok ⟨[("http://b.com", "OK")], [⟨"React", []⟩]⟩] := by
  have h := (C2_perform_total true pyTwo cliIdle ["a.com", "b.com"]
      (by intro t ht; fin_cases ht <;> rfl)).1
  rw [h]
  rfl

/-- C3: rectangularity of aggregation.  Whenever the aggregation completes,
every produced record has key set `{Urls, Last_Url} ∪ allApps` — in
particular every discovered ColumnKey is present in every record and all
records share one key set — and every ColumnKey the target lacks is bound
to the empty-string default. -/
theorem C3_rectangular (setEnum : List String → List String)
    (raw : List Outcome) (recs : List (List (String × String)))
    (hσ : IsSetEnum setEnum) (h : aggregate setEnum raw = .ok recs) :
    ∀ rec ∈ recs,
      (∀ k : String, (getVal rec k).isSome = true
          ↔ (k = "Urls" ∨ k = "Last_Url" ∨ k ∈ allApps raw))
      ∧ ∃ r, Outcome.ok r ∈ raw ∧ buildRecord setEnum (allApps raw) r = .ok rec
          ∧ ∀ k ∈ allApps raw, getVal rec k = some ((getVal (websiteDict r) k).getD "") := by
  intro rec hrec
  obtain ⟨r, hr, hb⟩ := aggGo_ok_mem setEnum (allApps raw) raw recs h rec hrec
  have hrd : r ∈ raw.filterMap Outcome.toDict :=
    List.mem_filterMap.mpr ⟨Outcome.ok r, hr, rfl⟩
  have hb' := hb
  unfold buildRecord at hb'
  by_cases hu : r.urls.isEmpty
  · rw [if_pos hu] at hb'
    cases hb'
  · rw [if_neg hu] at hb'
    obtain ⟨hmap, hval⟩ := ensure_keys_ok setEnum (websiteDict r) (allApps raw) "" rec hb'
    constructor
    · intro k
      rw [hmap, getVal_mapSelf (fun k => (getVal (websiteDict r) k).getD "") _ k]
      constructor
      · intro hif
        by_cases hkf : k ∈ setEnum (keysOf (websiteDict r) ++ allApps raw)
        · have hk2 := ((hσ _).2 k).mp hkf
          rcases List.mem_append.mp hk2 with hkk | hkk
          · rcases (mem_keysOf_websiteDict r k).mp hkk with rfl | rfl | ⟨a, ha, rfl⟩
            · exact Or.inl rfl
            · exact Or.inr (Or.inl rfl)
            · exact Or.inr (Or.inr ((mem_allApps raw _).mpr ⟨r, hrd, a, ha, rfl⟩))
          · exact Or.inr (Or.inr hkk)
        · rw [if_neg hkf] at hif
          cases hif
      · intro hk
        have hkmem : k ∈ keysOf (websiteDict r) ++ allApps raw := by
          rcases hk with rfl | rfl | hk
          · exact List.mem_append_left _ ((mem_keysOf_websiteDict r _).mpr (Or.inl rfl))
          · exact List.mem_append_left _
              ((mem_keysOf_websiteDict r _).mpr (Or.inr (Or.inl rfl)))
          · exact List.mem_append_right _ hk
        rw [if_pos (((hσ _).2 k).mpr hkmem)]
        rfl
    · refine ⟨r, hr, hb, fun k hk => ?_⟩
      rw [hmap, getVal_mapSelf (fun k => (getVal (websiteDict r) k).getD "") _ k]
      rw [if_pos (((hσ _).2 k).mpr (List.mem_append_right _ hk))]

def raw3 : List Outcome :=
  [Outcome.ok ⟨[("http://a.com", "OK")], [⟨"React", []⟩]⟩,
   Outcome.ok ⟨[("http://b.com", "OK")], [⟨"react-dom", []⟩]⟩]

def recs3 : List (List (String × String)) :=
  (aggregate (fun l => l.dedup) raw3).toOption.getD []

/-- Witness for C3: in a two-target run, the first record contains the
ColumnKey discovered only on the second target. -/
theorem C3_w : (getVal (recs3.headD []) "reactdom").isSome = true := by
  have h := C3_rectangular (fun l => l.dedup) raw3 recs3 dedup_isSetEnum rfl
  exact ((h (recs3.headD []) (by decide)).1 "reactdom").mpr
    (Or.inr (Or.inr (by decide)))

def raw4 : List Outcome :=
  [Outcome.ok ⟨[("http://example.com", "OK")],
    [⟨"jQuery", [("version", AppValue.str "3.5.1")]⟩]⟩]

def rec4 : List (String × String) :=
  ((aggregate (fun l => l.dedup) raw4).toOption.getD []).headD []

/-- C4 counterexample: for the single target whose adapter reports jQuery
version 3.5.1, the produced record's jQuery cell is the rendering
`"Version: 3.5.1"`, not `"Detected, version 3.5.1"`; the exported column
header is the titleized `"Jquery"`. -/
theorem C4_cex :
    aggregate (fun l => l.dedup) raw4 = .ok [rec4]
    ∧ getVal rec4 "jQuery" = some "Version: 3.5.1"
    ∧ getVal rec4 "jQuery" ≠ some "Detected, version 3.5.1"
    ∧ "Jquery" ∈ csvFieldnames (fun l => l.dedup) raw4 :=
  ⟨rfl, rfl, by decide, by decide⟩

def raw4b : List Outcome :=
  [Outcome.ok ⟨[("http://example.com", "OK")],
    [⟨"jQuery", ([] : List (String × AppValue))⟩]⟩]

def rec4b : List (String × String) :=
  ((aggregate (fun l => l.dedup) raw4b).toOption.getD []).headD []

/-- C4 (amended): the cell for a Finding is the newline-joined
`"Key: value"` rendering of its remaining truthy fields — `"Version: X"`
when a version is present and the empty string when there is none (never
the literal "Detected"); in particular the jQuery/3.5.1 scenario yields
one record whose jQuery column is `"Version: 3.5.1"`. -/
theorem C4_value_rendering :
    (∀ n : String, renderApp ⟨n, []⟩ = "")
    ∧ getVal rec4 "jQuery" = some "Version: 3.5.1"
    ∧ aggregate (fun l => l.dedup) raw4b = .ok [rec4b]
    ∧ getVal rec4b "jQuery" = some "" :=
  ⟨fun _ => rfl, rfl, rfl, rfl⟩

def pyBoom : String → PyResp := fun _ => PyResp.exc "boom"

/-- C5 counterexample: one target completes with a failure Outcome before
the interrupt, yet the interrupted run proceeds with an empty outcome list
(`self.results` only ever receives successes, line 271) and ends in the
"no valid results" exit — the completed failure is not carried into
aggregation/export, contradicting "successes and failures". -/
theorem C5_cex :
    analyzeOut true pyBoom cliIdle "b.com" = AnalyzeOut.err "boom"
    ∧ rawResults true pyBoom cliIdle ["b.com"] (some ["b.com"]) = .ok []
    ∧ massRun true pyBoom cliIdle (fun l => l.dedup) "csv" "out" ["b.com"]
        (some ["b.com"]) = RunEnd.exited 1 "No valid results, quitting." :=
  ⟨rfl, rfl, rfl⟩

/-- C5 (amended): an interrupt is caught (the run still produces a
`RunEnd`, never re-raising), submission stops, and the run proceeds to
aggregation and export with exactly the *successful* results completed at
the moment of interruption: an interrupted run behaves like an
uninterrupted run over the completed-and-succeeded targets.  Completed
failure Outcomes are discarded. -/
theorem C5_interrupt_partial (python : Bool) (pyE : String → PyResp)
    (cliE : String → CliResp) (setEnum : List String → List String)
    (fmt outfile : String) (targets completed : List String) :
    massRun python pyE cliE setEnum fmt outfile targets (some completed)
      = massRun python pyE cliE setEnum fmt outfile
          (completed.filter (fun t => (analyzeOut python pyE cliE t).isOk)) none := by
  unfold massRun rawResults
  rw [performE_filter_isOk]

/-- C6: a run whose aggregation yields zero records prints the
human-readable "No valid results, quitting." message and exits with the
non-zero status 1; it writes no output file and does not crash. -/
theorem C6_no_results (setEnum : List String → List String) (fmt outfile : String)
    (raw : List Outcome) (h : aggregate setEnum raw = .ok []) :
    runEnd setEnum fmt outfile raw = RunEnd.exited 1 "No valid results, quitting."
    ∧ (∀ msg, runEnd setEnum fmt outfile raw ≠ RunEnd.exited 0 msg)
    ∧ (∀ fn ft, runEnd setEnum fmt outfile raw ≠ RunEnd.wrote fn ft)
    ∧ (∀ msg, runEnd setEnum fmt outfile raw ≠ RunEnd.crashed msg) := by
  have hr : runEnd setEnum fmt outfile raw
      = RunEnd.exited 1 "No valid results, quitting." := by
    unfold runEnd
    rw [h]
    rfl
  refine ⟨hr, fun msg hc => ?_, fun fn ft hc => ?_, fun msg hc => ?_⟩
  · rw [hr] at hc
    simp at hc
  · rw [hr] at hc
    simp at hc
  · rw [hr] at hc
    simp at hc

/-- Witness for C6: a run whose only outcome is a failure exits 1 with the
message. -/
theorem C6_w :
    runEnd (fun l => l.dedup) "csv" "out" [Outcome.err "boom"]
      = RunEnd.exited 1 "No valid results, quitting." :=
  (C6_no_results (fun l => l.dedup) "csv" "out" [Outcome.err "boom"] rfl).1

def raw7 : List Outcome := [Outcome.ok ⟨[("http://a.com", "OK")], [⟨"jQuery", []⟩]⟩]

/-- C7 counterexample: under an admissible Python-set enumeration order the
CSV header comes out as `["Urls", "Last_Url", "Jquery"]`, which is not in
lexicographic order — the record keys pass through `list(set(...))` in
`ensure_keys`, which destroys the sortedness of `all_apps`; nothing sorts
the columns of the output. -/
theorem C7_cex :
    IsSetEnum (fun l => l.dedup)
    ∧ csvFieldnames (fun l => l.dedup) raw7 = ["Urls", "Last_Url", "Jquery"]
    ∧ isSortedLe (csvFieldnames (fun l => l.dedup) raw7) = false :=
  ⟨dedup_isSetEnum, rfl, rfl⟩

/-- C7 (amended): the row order of the normalized output matches the order
in which Outcomes were produced — record `i` is built from the `i`-th
successful outcome — while the column order is the unspecified set-
enumeration order of the key set, not lexicographic. -/
theorem C7_row_order (setEnum : List String → List String)
    (raw : List Outcome) (recs : List (List (String × String)))
    (h : aggregate setEnum raw = .ok recs) :
    recs.length = (raw.filterMap Outcome.toDict).length
    ∧ ∀ i : Nat, recs[i]?
        = ((raw.filterMap Outcome.toDict)[i]?).bind
            (fun r => (buildRecord setEnum (allApps raw) r).toOption) :=
  ⟨aggGo_length setEnum (allApps raw) raw recs h,
   aggGo_get setEnum (allApps raw) raw recs h⟩

def raw7w : List Outcome :=
  [Outcome.ok ⟨[("http://a.com", "OK")], [⟨"React", []⟩]⟩,
   Outcome.err "timeout",
   Outcome.ok ⟨[("http://b.com", "OK")], []⟩]

def recs7w : List (List (String × String)) :=
  (aggregate (fun l => l.dedup) raw7w).toOption.getD []

/-- Witness for C7: two successes and one failure yield exactly two rows,
in production order. -/
theorem C7_w : recs7w.length = 2 := by
  have h := (C7_row_order (fun l => l.dedup) raw7w recs7w rfl).1
  rw [h]
  rfl

/-- C8: within one record, Findings are applied by `dict.update` in arrival
order, so the value stored at a non-metadata ColumnKey is the rendering of
the *last* application whose sanitized name equals that key; record
construction preserves that value, and collisions never make the run fail —
aggregation succeeds whenever the urls are non-empty and all sanitized
names are valid field names, with no distinctness requirement. -/
theorem C8_last_write_wins (r : WResult) (k : String)
    (hk1 : k ≠ "Urls") (hk2 : k ≠ "Last_Url") :
    getVal (websiteDict r) k
      = ((r.applications.filter (fun a => clean a.name == k)).getLast?).map renderApp
    ∧ (∀ setEnum allA rec, buildRecord setEnum allA r = .ok rec → IsSetEnum setEnum →
        k ∈ keysOf (websiteDict r) → getVal rec k = getVal (websiteDict r) k)
    ∧ (∀ setEnum raw, IsSetEnum setEnum →
        (∀ r' ∈ raw.filterMap Outcome.toDict, r'.urls ≠ []) →
        (∀ n ∈ collectNames raw, validFieldName n = true) →
        exceptOk (aggregate setEnum raw) = true) := by
  have hbase : getVal [("Urls", urlsField r), ("Last_Url", lastUrlField r)] k = none := by
    simp [getVal, Ne.symm hk1, Ne.symm hk2]
  refine ⟨?_, ?_, ?_⟩
  · unfold websiteDict
    rw [getVal_foldl_update]
    cases hL : (r.applications.filter (fun a => clean a.name == k)).getLast? with
    | some a => simp [hL]
    | none => simp [hL, hbase]
  · intro setEnum allA rec hb hσ hkmem
    unfold buildRecord at hb
    by_cases hu : r.urls.isEmpty
    · rw [if_pos hu] at hb
      cases hb
    · rw [if_neg hu] at hb
      obtain ⟨hmap, hval⟩ := ensure_keys_ok setEnum (websiteDict r) allA "" rec hb
      rw [hmap, getVal_mapSelf (fun k => (getVal (websiteDict r) k).getD "") _ k]
      rw [if_pos (((hσ _).2 k).mpr (List.mem_append_left _ hkmem))]
      have hsome : (getVal (websiteDict r) k).isSome = true :=
        (getVal_isSome_iff _ k).mpr hkmem
      cases hgv : getVal (websiteDict r) k with
      | none => rw [hgv] at hsome; cases hsome
      | some v => simp [hgv]
  · intro setEnum raw hσ hu hv
    have hva : ∀ n ∈ allApps raw, validFieldName n = true := fun n hn =>
      hv n (List.mem_dedup.mp ((mem_sortStrings _ n).mp hn))
    exact aggGo_isOk setEnum (allApps raw) raw hσ
      (fun r' hr' => ⟨hu r' hr', fun a ha => hv (clean a.name)
        (List.mem_flatMap.mpr ⟨r', hr', List.mem_map.mpr ⟨a, ha, rfl⟩⟩)⟩)
      hva

def wrC8 : WResult :=
  ⟨[("http://c.com", "OK")],
   [⟨"React+", [("version", AppValue.str "1")]⟩,
    ⟨"React!", [("version", AppValue.str "2")]⟩]⟩

/-- Witness for C8: two Findings whose names both sanitize to "React"; the
stored value is the second one's rendering. -/
theorem C8_w : getVal (websiteDict wrC8) "React" = some "Version: 2" := by
  rw [(C8_last_write_wins wrC8 "React" (by decide) (by decide)).1]
  rfl

/-- C9: for the closed set of requested formats, the output name keeps the
caller's text: it is returned unchanged when its lowercased final
extension already matches the (lowercase) format, and gets "." and the
format appended otherwise — never truncated or overwritten. -/
theorem C9_outputfile (name fmt : String)
    (h : fmt ∈ (["xlsx", "csv", "json"] : List String)) :
    (pyLower (lastExtOf name) = pyLower fmt → setOutputfile name fmt = name)
    ∧ (pyLower (lastExtOf name) ≠ pyLower fmt →
        setOutputfile name fmt = name ++ "." ++ fmt)
    ∧ (setOutputfile name fmt = name ∨ setOutputfile name fmt = name ++ "." ++ fmt) := by
  have hfmt : pyLower fmt = fmt := by
    simp only [List.mem_cons, List.not_mem_nil, or_false] at h
    rcases h with rfl | rfl | rfl <;> rfl
  have hlen : ((splitDot name.data).map String.mk).length > 0 := by
    have hne := splitDot_ne_nil name.data
    cases hs : splitDot name.data with
    | nil => exact absurd hs hne
    | cons a t => simp [hs]
  rw [hfmt]
  unfold setOutputfile
  rw [if_pos hlen]
  by_cases hc : pyLower (lastExtOf name) = fmt
  · rw [if_neg (not_not_intro hc)]
    exact ⟨fun _ => rfl, fun hne => absurd hc hne, Or.inl rfl⟩
  · rw [if_pos hc]
    exact ⟨fun he => absurd he hc, fun _ => rfl, Or.inr rfl⟩

/-- Witness for C9: an unmatched extension gets the format appended; a
case-insensitively matching extension is kept unchanged. -/
theorem C9_w :
    setOutputfile "report" "csv" = "report.csv"
    ∧ setOutputfile "report.CSV" "csv" = "report.CSV" := by
  constructor
  · exact (C9_outputfile "report" "csv" (by decide)).2.1 (by decide)
  · exact (C9_outputfile "report.CSV" "csv" (by decide)).1 (by decide)

/-- C10: `ensure_keys` succeeds only when every key (of the dict and of the
requested key set) is a valid identifier not beginning with an underscore;
if any key is empty, underscore-led, or otherwise not an identifier —
as the sanitizer produces for all-digit or underscore-led names — the
namedtuple field-name validation raises; on success the result maps every
such key, binding keys missing from the dict to the default. -/
theorem C10_ensure_keys_validation (setEnum : List String → List String)
    (d : List (String × String)) (keys : List String) (dv : String)
    (hσ : IsSetEnum setEnum) :
    ((∃ m, ensure_keys setEnum d keys dv = .ok m) →
      ∀ k ∈ keysOf d ++ keys, pyIsIdentifier k = true ∧ startsUnderscore k = false)
    ∧ ((∃ k ∈ keysOf d ++ keys, pyIsIdentifier k = false ∨ startsUnderscore k = true) →
      ∃ e, ensure_keys setEnum d keys dv = .error e)
    ∧ (∀ m, ensure_keys setEnum d keys dv = .ok m →
      ∀ k : String, getVal m k
        = if k ∈ keysOf d ++ keys then some ((getVal d k).getD dv) else none) := by
  refine ⟨?_, ?_, ?_⟩
  · rintro ⟨m, hm⟩ k hk
    have hva := (ensure_keys_ok setEnum d keys dv m hm).2 k (((hσ _).2 k).mpr hk)
    have hs := validFieldName_spec k hva
    exact ⟨hs.1, hs.2.2⟩
  · rintro ⟨k, hk, hbad⟩
    cases he : ensure_keys setEnum d keys dv with
    | error e => exact ⟨e, rfl⟩
    | ok m =>
      have hva := (ensure_keys_ok setEnum d keys dv m he).2 k (((hσ _).2 k).mpr hk)
      have hs := validFieldName_spec k hva
      rcases hbad with hb | hb
      · rw [hs.1] at hb
        cases hb
      · rw [hs.2.2] at hb
        cases hb
  · intro m hm k
    have hmap := (ensure_keys_ok setEnum d keys dv m hm).1
    subst hmap
    rw [getVal_mapSelf (fun k => (getVal d k).getD dv) _ k]
    by_cases hk : k ∈ keysOf d ++ keys
    · rw [if_pos (((hσ _).2 k).mpr hk), if_pos hk]
    · rw [if_neg (fun hc => hk (((hσ _).2 k).mp hc)), if_neg hk]

/-- Witness for C10: the empty key — exactly what `clean` produces for an
all-digit Finding name — makes `ensure_keys` fail. -/
theorem C10_w :
    exceptOk (ensure_keys (fun l => l.dedup) [("Urls", "u")] [""] "") = false := by
  obtain ⟨e, he⟩ := (C10_ensure_keys_validation (fun l => l.dedup) [("Urls", "u")] [""] ""
      dedup_isSetEnum).2.1 ⟨"", by decide, Or.inl (by decide)⟩
  rw [he]
  rfl

end MW
